import Mathlib

/-!
Verification development for the Learning-Middleware repository's SME
content-generation service.  The Python sources under `sme/` are shallowly
embedded: strings are lists of Unicode code points (`List Nat`), stateful
loops become explicit recursion on a countdown, the remote VLLM backend and
the regex-based candidate extraction are oracle parameters, and Python
exceptions become `Except` values.  All inputs handled by the claims are
ASCII, where Python's `str.lower`/`str.upper`/`str.isupper` coincide with
the ASCII case maps used here.
-/

namespace SME

/-- Python strings are modelled as lists of code points. -/
abbrev Str := List Nat

/-- Code points of a Lean string literal, for writing concrete Python strings. -/
def str2c (s : String) : Str := s.data.map Char.toNat

/-- Python `str.split()` whitespace test (ASCII whitespace: space, \t, \n, \r, \v, \f). -/
def pySpace (c : Nat) : Bool :=
  c == 32 || c == 9 || c == 10 || c == 13 || c == 11 || c == 12

/-- ASCII lower-case map, matching Python `str.lower` on ASCII text. -/
def lowerC (c : Nat) : Nat := if 65 ≤ c ∧ c ≤ 90 then c + 32 else c

/-- ASCII upper-case map, matching Python `str.upper` on ASCII text. -/
def upperC (c : Nat) : Nat := if 97 ≤ c ∧ c ≤ 122 then c - 32 else c

/-- Python `str.isupper` on a single ASCII character. -/
def isUpperC (c : Nat) : Bool := 65 ≤ c && c ≤ 90

/-- Python `s.lower()`. -/
def pyLower (s : Str) : Str := s.map lowerC

/-- Drop matching characters from the right end (`str.rstrip`). -/
def rdrop (p : Nat → Bool) (s : Str) : Str := (s.reverse.dropWhile p).reverse

/-- Python `s.strip()` (strip ASCII whitespace from both ends). -/
def pyStrip (s : Str) : Str := rdrop pySpace (s.dropWhile pySpace)

/-- Python `s.rstrip('.')`. -/
def pyRstripDot (s : Str) : Str := rdrop (fun c => c == 46) s

/-- Accumulator worker for `splitWs`; `cur` holds the current word reversed. -/
def splitWsAux : Str → Str → List Str
  | [], cur => if cur = [] then [] else [cur.reverse]
  | c :: rest, cur =>
    if pySpace c then
      if cur = [] then splitWsAux rest [] else cur.reverse :: splitWsAux rest []
    else splitWsAux rest (c :: cur)

/-- Python `s.split()`: split on runs of whitespace, discarding empty parts. -/
def splitWs (s : Str) : List Str := splitWsAux s []

/-- Word count: `len(s.split())`. -/
def wc (s : Str) : Nat := (splitWs s).length

/-- Python `a.startswith(b)`. -/
def pyStarts (s pre : Str) : Bool := s.take pre.length == pre

/-- Python `a.startswith((p1, p2, ...))`. -/
def pyStartsAny (s : Str) (ps : List Str) : Bool := ps.any (pyStarts s)

/-- Python substring test `sub in hay`. -/
def containsSub (hay sub : Str) : Bool :=
  (List.range (hay.length + 1)).any (fun i => (hay.drop i).take sub.length == sub)

/-- Python `s.count(c)` for a single character. -/
def countChar (s : Str) (c : Nat) : Nat := (s.filter (fun x => x == c)).length

/-- Distinct tokens of a string: `set(s.split())` as a deduplicated list. -/
def tokenSet (s : Str) : List Str := (splitWs s).dedup

/-- `len(set(a.split()) & set(b.split()))` for already-lowercased strings. -/
def overlapCount (a b : Str) : Nat :=
  ((tokenSet a).filter (fun w => w ∈ tokenSet b)).length

/--
`len(s_words & seen_words) / len(s_words) > 0.6` from
`lo_gen/main.py:572-573`, expressed over rationals as `5·|∩| > 3·|s_words|`.
For the token-set sizes reachable here (at most a few dozen) the Python
float comparison agrees with the exact rational comparison.
-/
def overlapGt (sLower seenLower : Str) : Bool :=
  5 * overlapCount sLower seenLower > 3 * (tokenSet sLower).length

/-! ### Learning-objective generator (`sme/lo_gen/main.py`) -/

/-- The fixed action-verb list of `validate_objectives` (`lo_gen/main.py:349-358`). -/
def actionVerbs : List Str :=
  [str2c "understand", str2c "explain", str2c "describe", str2c "identify",
   str2c "recognize", str2c "recall", str2c "comprehend", str2c "interpret",
   str2c "summarize", str2c "classify", str2c "distinguish", str2c "analyze",
   str2c "compare", str2c "contrast", str2c "examine", str2c "investigate",
   str2c "explore", str2c "evaluate", str2c "assess", str2c "critique",
   str2c "justify", str2c "determine", str2c "derive", str2c "apply",
   str2c "demonstrate", str2c "illustrate", str2c "relate", str2c "use",
   str2c "employ"]

/-- The placeholder substring patterns of `validate_objectives` (`lo_gen/main.py:360-364`). -/
def placeholderPatterns : List Str :=
  [str2c "lo1", str2c "lo2", str2c "lo3", str2c "lo4", str2c "lo5", str2c "lo6",
   str2c "objective 1", str2c "objective 2", str2c "objective 3",
   str2c "learning objective", str2c "new objective", str2c "additional objective"]

/-- `obj_clean = obj.strip().rstrip('.')` (`lo_gen/main.py:367`). -/
def objClean (obj : Str) : Str := pyRstripDot (pyStrip obj)

/-- Lowercased string contains some placeholder pattern (`lo_gen/main.py:372`). -/
def isPlaceholder (objLower : Str) : Bool :=
  placeholderPatterns.any (fun p => containsSub objLower p)

/-- Lowercased string starts with a verb from the fixed set (`lo_gen/main.py:383`). -/
def startsWithVerb (objLower : Str) : Bool :=
  actionVerbs.any (fun v => pyStarts objLower v)

/-- `len(set(obj_clean.lower().split()))` (`lo_gen/main.py:390`). -/
def distinctWordCount (s : Str) : Nat := (splitWs s).dedup.length

/--
The per-element checks of `validate_objectives` (`lo_gen/main.py:366-395`),
applied to the already cleaned string: no placeholder substring, word count
6..20 with length at least 20, an action-verb start, at least 5 spaces and
at least 4 distinct lowercase words.
-/
def validObjective (objClean0 : Str) : Bool :=
  let objLower := pyLower objClean0
  !isPlaceholder objLower &&
  (decide (6 ≤ wc objClean0) && decide (wc objClean0 ≤ 20) &&
    decide (20 ≤ objClean0.length)) &&
  startsWithVerb objLower &&
  !(decide (countChar objClean0 32 < 5)) &&
  !(decide (distinctWordCount objLower < 4))

/--
`validate_objectives` (`lo_gen/main.py:333-397`): clean each candidate,
keep the ones passing every check, return `None` when none survive.
-/
def validate_objectives (objectives : List Str) : Option (List Str) :=
  let valid := (objectives.map objClean).filter validObjective
  if valid = [] then none else some valid

/--
The wholesale pre-filter applied to a candidate list before validation in
`parse_json_array` (`lo_gen/main.py:204,227,259,...`): reject the whole list
when any entry starts with `lo`/`objective` (case-insensitively, after
stripping) or has fewer than 6 words.
-/
def batchLooksBad (parsed : List Str) : Bool :=
  parsed.any (fun obj =>
    pyStartsAny (pyLower (pyStrip obj)) [str2c "lo", str2c "objective"] ||
    decide ((splitWs (pyStrip obj)).length < 6))

/--
`parse_json_array` (`lo_gen/main.py:166-330`).  The regex/JSON machinery that
extracts candidate string lists from the raw model text is abstracted: the
function receives the candidate lists the strategies would extract, in
strategy order.  Each candidate list is rejected wholesale when it looks like
placeholders, otherwise passed through `validate_objectives`; the first
candidate yielding validated objectives wins, and with no fallback the
function returns `none` (`lo_gen/main.py:328-330`).
-/
def parse_json_array : List (List Str) → Option (List Str)
  | [] => none
  | cand :: rest =>
    if batchLooksBad cand then parse_json_array rest
    else
      match validate_objectives cand with
      | some v => some v
      | none => parse_json_array rest

/-- Accumulator of accepted objectives: `normalized` list plus `seen_objectives` set. -/
structure AccState where
  normalized : List Str
  seen : List Str
deriving Repr, DecidableEq

/-- `if not s[0].isupper(): s = s[0].upper() + s[1:]` (`lo_gen/main.py:491-492`). -/
def capFirst : Str → Str
  | [] => []
  | c :: rest => if isUpperC c then c :: rest else upperC c :: rest

/--
One iteration of the main-attempt acceptance loop body
(`lo_gen/main.py:478-502`): re-strip the candidate, reject when empty or
under 6 words or placeholder-like, capitalize, and reject exact
case-insensitive duplicates of the module name or of any seen objective.
-/
def acceptMain (nLos : Nat) (module : Str) (st : AccState) (lo : Str) : AccState :=
  if nLos ≤ st.normalized.length then st
  else if pyRstripDot (pyStrip lo) = [] ∨
      (splitWs (pyRstripDot (pyStrip lo))).length < 6 then st
  else if pyStartsAny (pyLower (pyRstripDot (pyStrip lo)))
      [str2c "lo", str2c "objective", str2c "learning objective"] then st
  else if pyLower (capFirst (pyRstripDot (pyStrip lo))) = pyLower module ∨
      st.seen.any (fun seen =>
        pyLower (capFirst (pyRstripDot (pyStrip lo))) == pyLower seen) then st
  else
    { normalized := st.normalized ++ [capFirst (pyRstripDot (pyStrip lo))],
      seen := st.seen ++ [capFirst (pyRstripDot (pyStrip lo))] }

/--
One iteration of the diversify-retry acceptance loop body
(`lo_gen/main.py:545-581`): same normalization, but the duplicate check also
rejects a candidate whose token-overlap ratio against some seen objective
exceeds 0.6 (checked only when the candidate has more than 4 words).
Returns the new state and whether the candidate was added.
-/
def acceptAdd (nLos : Nat) (st : AccState) (lo : Str) : AccState × Bool :=
  if nLos ≤ st.normalized.length then (st, false)
  else if pyRstripDot (pyStrip lo) = [] ∨
      (splitWs (pyRstripDot (pyStrip lo))).length < 6 then (st, false)
  else if pyStartsAny (pyLower (pyRstripDot (pyStrip lo)))
      [str2c "lo", str2c "objective", str2c "learning objective"] then (st, false)
  else if st.seen.any (fun seen =>
      pyLower (capFirst (pyRstripDot (pyStrip lo))) == pyLower seen ||
      (decide (4 < (splitWs (pyLower (capFirst (pyRstripDot (pyStrip lo))))).length) &&
        overlapGt (pyLower (capFirst (pyRstripDot (pyStrip lo)))) (pyLower seen)))
  then (st, false)
  else
    ({ normalized := st.normalized ++ [capFirst (pyRstripDot (pyStrip lo))],
       seen := st.seen ++ [capFirst (pyRstripDot (pyStrip lo))] }, true)

/-- Fold of `acceptAdd` over one parsed batch, counting `added_count`. -/
def foldAcceptAdd (nLos : Nat) (st : AccState) (los : List Str) : AccState × Nat :=
  los.foldl
    (fun p lo =>
      let q := acceptAdd nLos p.1 lo
      (q.1, p.2 + if q.2 then 1 else 0))
    (st, 0)

/-- Result of a blocking inference call: `{ok, text}` (`lo_gen/vllm_client.py`). -/
structure InferResult where
  ok : Bool
  text : Str
deriving Repr, DecidableEq

/--
The main-attempt loop of `generate_los_for_modules` (`lo_gen/main.py:441-502`),
as recursion on the remaining attempt budget (`remaining = 10 - main_attempt`).
`mainO` gives the backend result of each 1-based attempt; `ext` abstracts the
regex candidate extraction applied to the raw response text.  Also threads
`resp`, the raw text of the last attempt, which stays unassigned (`none`)
when the loop body never runs.
-/
def mainLoopGo (nLos : Nat) (module : Str) (ext : Str → List (List Str))
    (mainO : Nat → InferResult) (st : AccState) (resp : Option Str)
    (attempt : Nat) : Nat → AccState × Option Str
  | 0 => (st, resp)
  | remaining + 1 =>
    if st.normalized.length < nLos then
      let result := mainO (attempt + 1)
      let respText := if result.ok then result.text else []
      let st' :=
        match parse_json_array (ext respText) with
        | some parsed => parsed.foldl (acceptMain nLos module) st
        | none => st
      mainLoopGo nLos module ext mainO st' (some respText) (attempt + 1) remaining
    else (st, resp)

/--
The diversify-retry loop of `generate_los_for_modules`
(`lo_gen/main.py:504-588`), as recursion on the remaining attempt budget
(`remaining = 15 - additional_attempts`).  The focus-area rotation and the
covered-topics list only shape the prompt, which is absorbed into the
per-attempt oracle `addO`.  After each attempt the loop breaks when
`additional_attempts > 5 and added_count == 0` (`lo_gen/main.py:587-588`).
Returns the final state and the number of attempts issued.
-/
def addLoopGo (nLos : Nat) (ext : Str → List (List Str))
    (addO : Nat → InferResult) (st : AccState) (attempt : Nat) :
    Nat → AccState × Nat
  | 0 => (st, attempt)
  | remaining + 1 =>
    if st.normalized.length < nLos then
      let result := addO (attempt + 1)
      let respText := if result.ok then result.text else []
      let parsed := (parse_json_array (ext respText)).getD []
      let p := foldAcceptAdd nLos st parsed
      if 5 < attempt + 1 ∧ p.2 = 0 then (p.1, attempt + 1)
      else addLoopGo nLos ext addO p.1 (attempt + 1) remaining
    else (st, attempt)

/-- Per-module outcome: accepted objectives, raw last response, attempts issued. -/
structure ModuleRun where
  finalState : AccState
  resp : Option Str
  addAttempts : Nat
deriving Repr, DecidableEq

/--
Steps 2-3 of `generate_los_for_modules` for one module
(`lo_gen/main.py:440-588`): the ≤10 main attempts followed by the ≤15
diversify-retry attempts.
-/
def processModule (nLos : Nat) (module : Str) (ext : Str → List (List Str))
    (mainO addO : Nat → InferResult) : ModuleRun :=
  let p := mainLoopGo nLos module ext mainO ⟨[], []⟩ none 0 10
  let q := addLoopGo nLos ext addO p.1 0 15
  ⟨q.1, p.2, q.2⟩

/-- Python exceptions surfaced by the embedded code. -/
inductive PyErr where
  | nameError (name : Str)
  | fileNotFound (msg : Str)
  | valueError (msg : Str)
  | genericError (msg : Str)
deriving Repr, DecidableEq

/-- One entry of the `results` dictionary (`lo_gen/main.py:591-595`). -/
structure ModuleResult where
  learning_objectives : List Str
  raw_model_output : Str
deriving Repr, DecidableEq

/--
`generate_los_for_modules` (`lo_gen/main.py:404-616`) over its module list.
Building the per-module results entry reads the local variable `resp`
(`lo_gen/main.py:593`); when no main-loop iteration ever assigned it, Python
raises an unbound-local `NameError`, modelled as `Except.error`.
The trailing JSON dump of the results file is I/O outside the model.
-/
def generate_los_for_modules (nLos : Nat) (modules : List Str)
    (ext : Str → List (List Str)) (mainO addO : Str → Nat → InferResult) :
    Except PyErr (List (Str × ModuleResult)) :=
  modules.foldlM
    (fun acc module => do
      let run := processModule nLos module ext (mainO module) (addO module)
      match run.resp with
      | none => Except.error (PyErr.nameError (str2c "resp"))
      | some r =>
        pure (acc ++ [(module,
          ⟨run.finalState.normalized.take nLos, r⟩)]))
    []

/-! ### Quiz-generation workflow (`sme/quiz_gen/main.py`) -/

/-- A quiz question as declared by the `QuizQuestion` schema (`quiz_gen/main.py:61-69`). -/
structure QuizQuestion where
  id : Int
  qtype : Str
  question : Str
  options : List Str
  correct_answer : Str
  explanation : Str
  topic : Str
deriving Repr, DecidableEq

/-- The schema-constrained response shape `QuizOutput` (`quiz_gen/main.py:71-73`). -/
structure QuizOutput where
  questions : List QuizQuestion
deriving Repr, DecidableEq

/-- The aggregated quiz artifact (`quiz_gen/main.py:235-249`); generation
timestamps and config echoes are omitted. -/
structure Quiz where
  module_name : Str
  total_questions : Nat
  questions : List QuizQuestion
deriving Repr, DecidableEq

/-- The LangGraph `QuizState` record (`quiz_gen/main.py:79-87`); the config and
vector-store handles are absorbed into the node oracles. -/
structure QuizState where
  module_name : Str
  module_content : Str
  generated_questions : List QuizQuestion
  final_quiz : Option Quiz
  error : Option Str
deriving Repr, DecidableEq

/--
`generate_questions_node` (`quiz_gen/main.py:163-226`).  Everything inside
the `try` block up to deserialization (context retrieval, prompt assembly,
the schema-constrained backend call, `json.loads`) is summarized by
`response`: `Except.error m` is any exception raised there, `Except.ok q` a
successfully decoded `QuizOutput`.  An empty `questions` list raises
`ValueError("LLM returned an empty list of questions.")`, caught by the
same handler; any caught exception `e` sets
`error = f"Question generation failed: {e}"`.
-/
def generate_questions_node (st : QuizState) (response : Except Str QuizOutput) :
    QuizState :=
  match response with
  | Except.error m =>
    { st with error := some (str2c "Question generation failed: " ++ m) }
  | Except.ok q =>
    if q.questions = [] then
      { st with error := some (str2c "Question generation failed: " ++
          str2c "LLM returned an empty list of questions.") }
    else { st with generated_questions := q.questions }

/-- `aggregate_quiz_node` (`quiz_gen/main.py:228-256`): a no-op when the error
field is set, otherwise wraps the generated questions with metadata. -/
def aggregate_quiz_node (st : QuizState) : QuizState :=
  if st.error.isSome then st
  else
    { st with
      final_quiz :=
        some ⟨st.module_name, st.generated_questions.length, st.generated_questions⟩ }

/-- `save_quiz_node` (`quiz_gen/main.py:258-286`): a no-op when the error field
is set, otherwise persists `final_quiz`; the second component is the artifact
written to disk (`none` = nothing persisted). -/
def save_quiz_node (st : QuizState) : QuizState × Option Quiz :=
  if st.error.isSome then (st, none)
  else (st, st.final_quiz)

/--
`run_quiz_generation_workflow` (`quiz_gen/main.py:324-347`) over the compiled
three-node graph generate → aggregate → save.  Returns the persisted artifact
and either the raised error message (when the final state carries an error)
or the final state's quiz.
-/
def run_quiz_generation_workflow (moduleName content : Str)
    (response : Except Str QuizOutput) : Option Quiz × Except Str (Option Quiz) :=
  let s0 : QuizState := ⟨moduleName, content, [], none, none⟩
  let s1 := generate_questions_node s0 response
  let s2 := aggregate_quiz_node s1
  let p := save_quiz_node s2
  match p.1.error with
  | some e => (p.2, Except.error e)
  | none => (p.2, Except.ok p.1.final_quiz)

/--
Modelled from the spec: the quiz invariant of §8 / §3 — "question ids are
exactly `{1..N}` with no gaps/duplicates, and every `correct_answer` label
appears among that question's `options` labels", where an option's label is
its text before the `)` separator (options look like `"A) Option 1"`, labels
like `"A"`).  This definition follows the spec's words; the source declares
the fields (`quiz_gen/main.py:61-69`) but nowhere checks them.
-/
def specQuizInvariant (qs : List QuizQuestion) : Bool :=
  decide ((qs.map (fun q => q.id)).Perm
    ((List.range qs.length).map (fun i => (i : Int) + 1))) &&
  qs.all (fun q =>
    q.options.any (fun opt =>
      opt.takeWhile (fun c => !(c == 41)) == q.correct_answer))

/-! ### Inference client (`sme/lo_gen/vllm_client.py`) -/

/-- Outcome of one `httpx` POST attempt inside `_post` (`vllm_client.py:55-74`). -/
inductive AttemptOutcome where
  | success (data : Str)
  | timeoutExc
  | httpStatusErr (code : Nat) (body : Str)
  | otherExc (msg : Str)
deriving Repr, DecidableEq

/-- The `{ok, error, data}` dictionary `_post` returns (`vllm_client.py:62-76`);
`data` is kept abstract as the raw response payload. -/
structure PostResult where
  ok : Bool
  error : Option Str
  data : Option Str
deriving Repr, DecidableEq

/-- `f"HTTP {status}: {text}"` (`vllm_client.py:71`). -/
def httpErrMsg (code : Nat) (body : Str) : Str :=
  str2c "HTTP " ++ str2c (toString code) ++ str2c ": " ++ body

/--
The `for attempt in range(RETRIES + 1)` loop of `_post`
(`vllm_client.py:55-76`), as recursion on the remaining retries
(`remaining = RETRIES - attempt`).  A success returns `ok=True`; a timeout
sleeps `2**attempt` seconds and retries while attempts remain, else fails
with `"Request timeout"`; an HTTP status error or any other exception fails
immediately.  Returns the result, the list of sleep durations, and the
number of attempts issued.
-/
def postGo (oracle : Nat → AttemptOutcome) (attempt : Nat) :
    Nat → PostResult × List Nat × Nat
  | 0 =>
    match oracle attempt with
    | AttemptOutcome.success d => (⟨true, none, some d⟩, [], attempt + 1)
    | AttemptOutcome.timeoutExc =>
      (⟨false, some (str2c "Request timeout"), none⟩, [], attempt + 1)
    | AttemptOutcome.httpStatusErr c b =>
      (⟨false, some (httpErrMsg c b), none⟩, [], attempt + 1)
    | AttemptOutcome.otherExc m =>
      (⟨false, some m, none⟩, [], attempt + 1)
  | r + 1 =>
    match oracle attempt with
    | AttemptOutcome.success d => (⟨true, none, some d⟩, [], attempt + 1)
    | AttemptOutcome.timeoutExc =>
      let p := postGo oracle (attempt + 1) r
      (p.1, 2 ^ attempt :: p.2.1, p.2.2)
    | AttemptOutcome.httpStatusErr c b =>
      (⟨false, some (httpErrMsg c b), none⟩, [], attempt + 1)
    | AttemptOutcome.otherExc m =>
      (⟨false, some m, none⟩, [], attempt + 1)

/-- `_post` (`vllm_client.py:49-76`) with retry budget `retries` (`RETRIES`). -/
def vllmPost (oracle : Nat → AttemptOutcome) (retries : Nat) :
    PostResult × List Nat × Nat :=
  postGo oracle 0 retries

/--
`_extract_text` (`vllm_client.py:79-95`) restricted to its guard on `ok`:
a failed result yields the empty string before any payload field is read.
The payload traversal (`choices[0].message.content` etc.) is abstracted by
`decode`, applied only when `ok` is true and data is present.
-/
def extract_text (decode : Str → Str) (result : PostResult) : Str :=
  if result.ok then
    match result.data with
    | some d => decode d
    | none => []
  else []

/-! ### Module-content generator (`sme/module_gen/main.py`) -/

/--
`load_vector_store` (`module_gen/main.py:39-75`): raises `FileNotFoundError`
when the course-specific vector-store path does not exist, otherwise loads
the persisted index.  There is no branch that builds an index.  `vsExists`
is whether the path exists; `vs` the abstract loaded store.
-/
def mg_load_vector_store (vsExists : Bool) (vs : Str) : Except PyErr Str :=
  if vsExists then Except.ok vs
  else Except.error (PyErr.fileNotFound (str2c "Vector store not found"))

/--
The per-objective summarization pass of `generate_module_content`
(`module_gen/main.py:350-354` calling `summarize_chunks_for_objective`,
`module_gen/main.py:111-174`): for the i-th objective, an empty chunk list
raises `ValueError` before any call; otherwise one inference call is made
and a failed call raises.  Returns the summaries and the number of
inference calls made.  The `</think>` post-processing of each summary does
not affect the call count and is omitted here.
-/
def summarizeLoop (chunksFor : Nat → List Str) (summarizeRes : Nat → InferResult) :
    Nat → Nat → Except PyErr (List Str) × Nat
  | _, 0 => (Except.ok [], 0)
  | i, n + 1 =>
    if chunksFor i = [] then
      (Except.error (PyErr.valueError (str2c "No context available")), 0)
    else
      let r := summarizeRes i
      if r.ok then
        let p := summarizeLoop chunksFor summarizeRes (i + 1) n
        match p.1 with
        | Except.ok rest => (Except.ok (r.text :: rest), p.2 + 1)
        | Except.error e => (Except.error e, p.2 + 1)
      else (Except.error (PyErr.genericError (str2c "LLM call failed")), 1)

/--
`available_output_tokens = 8192 - len(prompt) // 4 - 100`
(`module_gen/main.py:384-385`), the value passed as `max_tokens`
(`module_gen/main.py:390-396`) with no lower-bound guard.
-/
def availableOutputTokens (promptLen : Nat) : Int :=
  8192 - (promptLen / 4 : Nat) - 100

/-- Outcome of `generate_module_content`: the result (or raised error), the
number of inference calls made, whether an index exists afterwards, and the
`max_tokens` value passed to the final generation call (if reached). -/
structure GenOutcome where
  result : Except PyErr Str
  inferCalls : Nat
  vsExistsAfter : Bool
  lastMaxTokens : Option Int
deriving Repr

/--
`generate_module_content` (`module_gen/main.py:312-446`): load the vector
store (no implicit build), retrieve chunks per objective, summarize each
objective (one inference call each), then issue the final generation call
with the dynamically computed `max_tokens` budget.  The prompt is assembled
upstream from config templates; here its text is the `prompt` argument.
The markdown section parsing of the successful response
(`module_gen/main.py:419-446`) packages the text and is omitted; no claim
depends on it.
-/
def generate_module_content (vsExists : Bool) (vs : Str)
    (objectives : List Str) (chunksFor : Nat → List Str)
    (summarizeRes : Nat → InferResult) (prompt : Str) (genRes : InferResult) :
    GenOutcome :=
  match mg_load_vector_store vsExists vs with
  | Except.error e => ⟨Except.error e, 0, vsExists, none⟩
  | Except.ok _ =>
    let p := summarizeLoop chunksFor summarizeRes 0 objectives.length
    match p.1 with
    | Except.error e => ⟨Except.error e, p.2, vsExists, none⟩
    | Except.ok _ =>
      let maxTokens := availableOutputTokens prompt.length
      if genRes.ok then
        ⟨Except.ok genRes.text, p.2 + 1, vsExists, some maxTokens⟩
      else
        ⟨Except.error (PyErr.genericError (str2c "LLM generation failed")),
          p.2 + 1, vsExists, some maxTokens⟩

/-! ### Vector-store construction (`sme/chat/rag.py`) -/

/-- The filesystem as seen by `create_vs`: persisted indexes by path and
document directories by path.  A persisted index is the chunk list it was
built from. -/
structure RagFS where
  savedVS : Str → Option (List Str)
  docs : Str → List Str

/-- `os.path.join(base, course_id)`. -/
def pathJoin (base course : Str) : Str := base ++ (47 :: course)

/--
The load-or-build core of `create_vs` (`chat/rag.py:333-361`) at resolved
paths: load and return an existing persisted index without touching the
documents, else ingest the documents, chunk them (`chunker` abstracts
`smart_document_chunking`, whose semantic splitter is an external
embedding-backed collaborator), build the index — embedding every chunk —
and persist it.  Returns the filesystem afterwards, the index, and the
number of chunks embedded (`0` when an existing index was loaded).
Metadata enhancement does not change the chunk count and is omitted.
-/
def create_vs_at (fs : RagFS) (docsPath1 vsPath1 : Str)
    (chunker : Str → List Str) : Except PyErr (RagFS × List Str × Nat) :=
  match fs.savedVS vsPath1 with
  | some vs => Except.ok (fs, vs, 0)
  | none =>
    let documents := fs.docs docsPath1
    if documents = [] then
      Except.error (PyErr.valueError (str2c "No documents successfully loaded"))
    else
      let texts := documents.flatMap chunker
      if texts = [] then
        Except.error (PyErr.valueError (str2c "No valid chunks created from documents"))
      else
        Except.ok
          ({ fs with
              savedVS := fun p => if p = vsPath1 then some texts else fs.savedVS p },
           texts, texts.length)

/-- `create_vs` (`chat/rag.py:313-361`): resolve the course-specific
document and vector-store paths (`chat/rag.py:326-331`), then load or build. -/
def create_vs (fs : RagFS) (docsPath vsPath : Str) (courseId : Option Str)
    (chunker : Str → List Str) : Except PyErr (RagFS × List Str × Nat) :=
  match courseId with
  | some c => create_vs_at fs (pathJoin docsPath c) (pathJoin vsPath c) chunker
  | none => create_vs_at fs docsPath vsPath chunker

/-! ### Derived predicates and concrete trace inputs -/

/-- The validated-objective properties of the claims: word count 6..20,
length at least 20 characters, an action-verb start, no placeholder. -/
def objProps (o : Str) : Prop :=
  6 ≤ wc o ∧ wc o ≤ 20 ∧ 20 ≤ o.length ∧
  startsWithVerb (pyLower o) = true ∧ isPlaceholder (pyLower o) = false

/-- Invariant of the accumulator: `seen_objectives` mirrors `normalized`,
accepted objectives are pairwise distinct case-insensitively, and each
satisfies the acceptance properties (length may fall below 20 after the
re-strip, so it is not part of the invariant). -/
def StateInv (st : AccState) : Prop :=
  st.seen = st.normalized ∧
  st.normalized.Pairwise (fun a b => pyLower a ≠ pyLower b) ∧
  ∀ s ∈ st.normalized,
    6 ≤ wc s ∧ wc s ≤ 20 ∧
    startsWithVerb (pyLower s) = true ∧ isPlaceholder (pyLower s) = false

/-- `f"Question generation failed: {e}"` for the empty-questions `ValueError`. -/
def emptyQuestionsError : Str :=
  str2c "Question generation failed: LLM returned an empty list of questions."

/-- A question whose id is not 1 and whose correct-answer label matches no
option label, as a schema-valid backend response element. -/
def badQuestion : QuizQuestion :=
  ⟨5, str2c "mcq", str2c "What is the capital of France?",
    [str2c "A) Paris", str2c "B) Rome"], str2c "Z",
    str2c "Paris is the capital.", str2c "Geography"⟩

/-- A concrete outcome sequence: first attempt times out, second hits an
HTTP 500 — used to witness the retry policy. -/
def oracleW : Nat → AttemptOutcome :=
  fun k => if k = 0 then AttemptOutcome.timeoutExc
    else AttemptOutcome.httpStatusErr 500 (str2c "boom")

/-- A well-formed learning objective used in concrete traces. -/
def goodObjective : Str := str2c "Understand the basic ideas of group theory"

/-- Candidate extraction for the C3 trace: only the raw response `"y"`
yields a candidate list. -/
def extC3 : Str → List (List Str) :=
  fun s => if s = str2c "y" then [[goodObjective]] else []

/-- Diversify-phase oracle for the C3 trace: attempt 1 returns text that
yields no candidates, attempt 2 returns text that yields a valid objective. -/
def addOC3 : Nat → InferResult :=
  fun a => if a = 1 then ⟨true, str2c "x"⟩ else ⟨true, str2c "y"⟩

/-- Two validated objectives sharing all but one token: their token-overlap
ratio is 6/7 resp. 6/6, both above 0.6, while their lowercases differ. -/
def objA : Str := str2c "Understand the basic ideas of groups"

/-- See `objA`. -/
def objB : Str := str2c "Understand the basic ideas of groups today"

/-- Candidate extraction for the C2 trace: the raw response `"z"` yields the
overlapping pair `objA`, `objB` in one batch. -/
def extC2 : Str → List (List Str) :=
  fun s => if s = str2c "z" then [[objA, objB]] else []

/-- Main-phase oracle for the C2 trace: attempt 1 succeeds with text `"z"`. -/
def mainOC2 : Nat → InferResult :=
  fun a => if a = 1 then ⟨true, str2c "z"⟩ else ⟨false, []⟩

/-- A validated objective sharing almost no tokens with `objA`, used to
witness an accepted diversify-phase candidate. -/
def objC : Str := str2c "Explain advanced notions regarding commutative ring structures"

/-- A candidate whose cleaned form ends in a space: `strip().rstrip('.')`
leaves `"Use a b c dd ee fff "` (20 chars), which the accumulation loop
re-strips to 19 chars. -/
def trailingSpaceObjective : Str := str2c "Use a b c dd ee fff ."

/-- Candidate extraction for the C6 trace. -/
def extC6 : Str → List (List Str) :=
  fun s => if s = str2c "w" then [[trailingSpaceObjective]] else []

/-- Main-phase oracle for the C6 trace: attempt 1 succeeds with text `"w"`. -/
def mainOC6 : Nat → InferResult :=
  fun a => if a = 1 then ⟨true, str2c "w"⟩ else ⟨false, []⟩

/-! ## Theorems -/

/--
C9: with a requested objective count of 0 and at least one module, the main
attempt loop of `generate_los_for_modules` never runs, so the results-storage
step reads the never-assigned local `resp` and the function raises a
`NameError` instead of returning results.
-/
theorem lo_gen_zero_count_raises_name_error (m : Str) (rest : List Str)
    (ext : Str → List (List Str)) (mainO addO : Str → Nat → InferResult) :
    generate_los_for_modules 0 (m :: rest) ext mainO addO =
      Except.error (PyErr.nameError (str2c "resp")) := by
  simp only [generate_los_for_modules, processModule, mainLoopGo, addLoopGo,
    List.foldlM_cons]
  rfl

/--
C5: `generate_module_content` with no previously built vector store for the
course fails with `FileNotFoundError` before any inference call is made
(zero calls issued) and never builds the index (the store still does not
exist afterwards), for any objectives list — in particular a non-empty one.
-/
theorem module_gen_missing_index_fails_first (vs : Str) (objectives : List Str)
    (chunksFor : Nat → List Str) (summarizeRes : Nat → InferResult)
    (prompt : Str) (genRes : InferResult) (hobj : objectives ≠ []) :
    (generate_module_content false vs objectives chunksFor summarizeRes
        prompt genRes).result =
      Except.error (PyErr.fileNotFound (str2c "Vector store not found")) ∧
    (generate_module_content false vs objectives chunksFor summarizeRes
        prompt genRes).inferCalls = 0 ∧
    (generate_module_content false vs objectives chunksFor summarizeRes
        prompt genRes).vsExistsAfter = false := by
  refine ⟨?_, ?_, ?_⟩ <;>
    simp [generate_module_content, mg_load_vector_store]

/-- Witness for C5 at concrete inputs. -/
theorem module_gen_missing_index_fails_first_witness :
    (generate_module_content false (str2c "vs") [str2c "objective one"]
        (fun _ => []) (fun _ => ⟨false, []⟩) (str2c "p") ⟨false, []⟩).result =
      Except.error (PyErr.fileNotFound (str2c "Vector store not found")) ∧
    (generate_module_content false (str2c "vs") [str2c "objective one"]
        (fun _ => []) (fun _ => ⟨false, []⟩) (str2c "p") ⟨false, []⟩).inferCalls = 0 ∧
    (generate_module_content false (str2c "vs") [str2c "objective one"]
        (fun _ => []) (fun _ => ⟨false, []⟩) (str2c "p") ⟨false, []⟩).vsExistsAfter
      = false :=
  module_gen_missing_index_fails_first (str2c "vs") [str2c "objective one"]
    (fun _ => []) (fun _ => ⟨false, []⟩) (str2c "p") ⟨false, []⟩ (by simp)

theorem summarizeLoop_all_ok (chunksFor : Nat → List Str)
    (summarizeRes : Nat → InferResult) :
    ∀ n i, (∀ j, j < n → chunksFor (i + j) ≠ []) →
      (∀ j, j < n → (summarizeRes (i + j)).ok = true) →
      ∃ ts, summarizeLoop chunksFor summarizeRes i n = (Except.ok ts, n) := by
  intro n
  induction n with
  | zero => intro i _ _; exact ⟨[], rfl⟩
  | succ k ih =>
    intro i hch hok
    have h0 : chunksFor i ≠ [] := by
      have := hch 0 (Nat.succ_pos k); simpa using this
    have h1 : (summarizeRes i).ok = true := by
      have := hok 0 (Nat.succ_pos k); simpa using this
    obtain ⟨ts, hts⟩ := ih (i + 1)
      (fun j hj => by
        have := hch (j + 1) (by omega)
        simpa [Nat.add_assoc, Nat.add_comm 1 j] using this)
      (fun j hj => by
        have := hok (j + 1) (by omega)
        simpa [Nat.add_assoc, Nat.add_comm 1 j] using this)
    refine ⟨(summarizeRes i).text :: ts, ?_⟩
    simp [summarizeLoop, h0, h1, hts]

/--
C10: when `generate_module_content` reaches its generation call (index
present, every objective has chunks and a successful summarization), the
`max_tokens` argument passed is exactly `8192 - len(prompt) // 4 - 100`,
with no lower-bound guard: for any prompt of at least 32,368 characters the
value is zero or negative (and 32,367 characters is the largest length with
a positive budget).
-/
theorem module_gen_token_budget_unguarded (vs : Str) (objectives : List Str)
    (chunksFor : Nat → List Str) (summarizeRes : Nat → InferResult)
    (prompt : Str) (genRes : InferResult)
    (hch : ∀ j, j < objectives.length → chunksFor j ≠ [])
    (hok : ∀ j, j < objectives.length → (summarizeRes j).ok = true) :
    (generate_module_content true vs objectives chunksFor summarizeRes
        prompt genRes).lastMaxTokens =
      some (8192 - ((prompt.length / 4 : Nat) : Int) - 100) ∧
    (32368 ≤ prompt.length →
      availableOutputTokens prompt.length ≤ 0) ∧
    0 < availableOutputTokens 32367 := by
  obtain ⟨ts, hts⟩ := summarizeLoop_all_ok chunksFor summarizeRes
    objectives.length 0 (by simpa using hch) (by simpa using hok)
  refine ⟨?_, ?_, by decide⟩
  · cases hgen : genRes.ok <;>
      simp [generate_module_content, mg_load_vector_store, hts, hgen,
        availableOutputTokens]
  · intro hlen
    have h4 : 8092 ≤ prompt.length / 4 := by omega
    simp only [availableOutputTokens]
    omega

/-- Witness for C10 at concrete inputs: a 32,368-character prompt already
yields a zero token budget. -/
theorem module_gen_token_budget_unguarded_witness :
    (generate_module_content true (str2c "vs") [str2c "o"]
        (fun _ => [str2c "c"]) (fun _ => ⟨true, str2c "s"⟩)
        (List.replicate 32368 97) ⟨true, str2c "out"⟩).lastMaxTokens =
      some (8192 - (((List.replicate 32368 97 : Str).length / 4 : Nat) : Int) - 100) ∧
    (32368 ≤ (List.replicate 32368 97 : Str).length →
      availableOutputTokens (List.replicate 32368 97 : Str).length ≤ 0) ∧
    0 < availableOutputTokens 32367 :=
  module_gen_token_budget_unguarded (str2c "vs") [str2c "o"]
    (fun _ => [str2c "c"]) (fun _ => ⟨true, str2c "s"⟩)
    (List.replicate 32368 97) ⟨true, str2c "out"⟩
    (fun j _ => by simp) (fun j _ => rfl)

/--
C8: `create_vs` is idempotent.  Whenever a call succeeds — whether it loaded
an existing index or built and persisted a new one — an immediately repeated
call for the same course finds the persisted index, loads it, returns the
same index and the same filesystem, and performs zero embedding work.
-/
theorem create_vs_at_idempotent (fs fs₁ : RagFS) (docsPath1 vsPath1 : Str)
    (chunker : Str → List Str) (vs : List Str) (w : Nat)
    (h : create_vs_at fs docsPath1 vsPath1 chunker = Except.ok (fs₁, vs, w)) :
    create_vs_at fs₁ docsPath1 vsPath1 chunker = Except.ok (fs₁, vs, 0) := by
  unfold create_vs_at at h ⊢
  cases hsv : fs.savedVS vsPath1 with
  | some v =>
    rw [hsv] at h
    simp only [Except.ok.injEq, Prod.mk.injEq] at h
    obtain ⟨h1, h2, _⟩ := h
    subst h1
    rw [hsv, h2]
  | none =>
    rw [hsv] at h
    simp only at h
    by_cases hdocs : fs.docs docsPath1 = []
    · simp [hdocs] at h
    · rw [if_neg hdocs] at h
      by_cases htexts : (fs.docs docsPath1).flatMap chunker = []
      · simp [htexts] at h
      · rw [if_neg htexts] at h
        simp only [Except.ok.injEq, Prod.mk.injEq] at h
        obtain ⟨h1, h2, _⟩ := h
        subst h2
        rw [← h1]
        simp [← h1]

/--
C8: `create_vs` is idempotent.  Whenever a call succeeds — whether it loaded
an existing index or built and persisted a new one — an immediately repeated
call for the same course finds the persisted index at the course-specific
path, loads it, returns the same index and the same filesystem, and performs
zero embedding work: two successive calls embed documents at most once.
-/
theorem create_vs_idempotent (fs fs₁ : RagFS) (docsPath vsPath : Str)
    (courseId : Option Str) (chunker : Str → List Str) (vs : List Str) (w : Nat)
    (h : create_vs fs docsPath vsPath courseId chunker = Except.ok (fs₁, vs, w)) :
    create_vs fs₁ docsPath vsPath courseId chunker = Except.ok (fs₁, vs, 0) := by
  cases courseId with
  | some c => exact create_vs_at_idempotent fs fs₁ _ _ chunker vs w h
  | none => exact create_vs_at_idempotent fs fs₁ _ _ chunker vs w h

/-- Witness for C8: a fresh filesystem with one document, built then reloaded. -/
theorem create_vs_idempotent_witness :
    create_vs
      ⟨fun p => if p = str2c "vs" then some [str2c "doc"] else none,
        fun _ => [str2c "doc"]⟩
      (str2c "docs") (str2c "vs") none (fun d => [d]) =
      Except.ok
        (⟨fun p => if p = str2c "vs" then some [str2c "doc"] else none,
            fun _ => [str2c "doc"]⟩,
          [str2c "doc"], 0) :=
  create_vs_idempotent
    ⟨fun _ => none, fun _ => [str2c "doc"]⟩
    ⟨fun p => if p = str2c "vs" then some [str2c "doc"] else none,
      fun _ => [str2c "doc"]⟩
    (str2c "docs") (str2c "vs") none (fun d => [d]) [str2c "doc"] 1 rfl

/--
C4: a syntactically valid backend response whose `questions` list is empty
makes `generate_questions_node` record a failure in the error field; any
state with the error field set passes through `aggregate_quiz_node` and
`save_quiz_node` unchanged with nothing persisted; and the workflow runner
raises that error message at the terminal state, persisting no artifact.
-/
theorem quiz_empty_questions_error_propagation :
    (∀ st : QuizState,
      generate_questions_node st (Except.ok ⟨[]⟩) =
        { st with error := some emptyQuestionsError }) ∧
    (∀ st : QuizState, st.error.isSome → aggregate_quiz_node st = st) ∧
    (∀ st : QuizState, st.error.isSome → save_quiz_node st = (st, none)) ∧
    (∀ name content : Str,
      run_quiz_generation_workflow name content (Except.ok ⟨[]⟩) =
        (none, Except.error emptyQuestionsError)) := by
  have hmsg : str2c "Question generation failed: " ++
      str2c "LLM returned an empty list of questions." = emptyQuestionsError := by
    decide
  refine ⟨?_, ?_, ?_, ?_⟩
  · intro st
    simp [generate_questions_node, hmsg]
  · intro st h
    simp [aggregate_quiz_node, h]
  · intro st h
    simp [save_quiz_node, h]
  · intro name content
    simp [run_quiz_generation_workflow, generate_questions_node,
      aggregate_quiz_node, save_quiz_node, hmsg]

/-- Witness for C4 at a concrete state and workflow input. -/
theorem quiz_empty_questions_error_propagation_witness :
    generate_questions_node ⟨str2c "M", str2c "C", [], none, none⟩
        (Except.ok ⟨[]⟩) =
      { module_name := str2c "M", module_content := str2c "C",
        generated_questions := [], final_quiz := none,
        error := some emptyQuestionsError } ∧
    aggregate_quiz_node ⟨str2c "M", str2c "C", [], none, some (str2c "boom")⟩ =
      ⟨str2c "M", str2c "C", [], none, some (str2c "boom")⟩ ∧
    save_quiz_node ⟨str2c "M", str2c "C", [], none, some (str2c "boom")⟩ =
      (⟨str2c "M", str2c "C", [], none, some (str2c "boom")⟩, none) ∧
    run_quiz_generation_workflow (str2c "M") (str2c "C") (Except.ok ⟨[]⟩) =
      (none, Except.error emptyQuestionsError) :=
  ⟨quiz_empty_questions_error_propagation.1 ⟨str2c "M", str2c "C", [], none, none⟩,
    quiz_empty_questions_error_propagation.2.1
      ⟨str2c "M", str2c "C", [], none, some (str2c "boom")⟩ (by decide),
    quiz_empty_questions_error_propagation.2.2.1
      ⟨str2c "M", str2c "C", [], none, some (str2c "boom")⟩ (by decide),
    quiz_empty_questions_error_propagation.2.2.2 (str2c "M") (str2c "C")⟩

/--
C1 counterexample: `generate_questions_node` accepts a decoded response whose
single question has id 5 (not `{1..1}`) and correct-answer label `Z` matching
no option, records no error, and the workflow packages and persists that quiz
— so the parser performs no structural verification and the generated quiz
violates the claimed invariant.
-/
theorem quiz_invariant_counterexample :
    (generate_questions_node ⟨str2c "M", str2c "C", [], none, none⟩
        (Except.ok ⟨[badQuestion]⟩)).error = none ∧
    (generate_questions_node ⟨str2c "M", str2c "C", [], none, none⟩
        (Except.ok ⟨[badQuestion]⟩)).generated_questions = [badQuestion] ∧
    run_quiz_generation_workflow (str2c "M") (str2c "C")
        (Except.ok ⟨[badQuestion]⟩) =
      (some ⟨str2c "M", 1, [badQuestion]⟩,
        Except.ok (some ⟨str2c "M", 1, [badQuestion]⟩)) ∧
    specQuizInvariant [badQuestion] = false := by
  refine ⟨rfl, rfl, rfl, by decide⟩

/--
C1 amended: after deserializing the schema-constrained response, the
`generate_questions` node performs no structural verification: any non-empty
questions list — whatever its ids and correct-answer labels — is stored
unchanged in the state, and only an empty list is treated as a failure.
-/
theorem quiz_parse_no_structural_check (st : QuizState) (q : QuizOutput)
    (h : q.questions ≠ []) :
    generate_questions_node st (Except.ok q) =
      { st with generated_questions := q.questions } := by
  simp [generate_questions_node, h]

/-- Witness for the amended C1 at a concrete state and response. -/
theorem quiz_parse_no_structural_check_witness :
    generate_questions_node ⟨str2c "M", str2c "C", [], none, none⟩
        (Except.ok ⟨[badQuestion]⟩) =
      { module_name := str2c "M", module_content := str2c "C",
        generated_questions := [badQuestion], final_quiz := none,
        error := none } :=
  quiz_parse_no_structural_check ⟨str2c "M", str2c "C", [], none, none⟩
    ⟨[badQuestion]⟩ (by decide)

theorem postGo_spec (oracle : Nat → AttemptOutcome) :
    ∀ remaining attempt,
      attempt < (postGo oracle attempt remaining).2.2 ∧
      (postGo oracle attempt remaining).2.2 ≤ attempt + remaining + 1 ∧
      (∀ k, attempt ≤ k → k + 1 < (postGo oracle attempt remaining).2.2 →
        oracle k = AttemptOutcome.timeoutExc) ∧
      (postGo oracle attempt remaining).2.1 =
        (List.range' attempt ((postGo oracle attempt remaining).2.2 - 1 - attempt)).map
          (fun k => 2 ^ k) ∧
      ((postGo oracle attempt remaining).1.ok = false →
        (postGo oracle attempt remaining).1.data = none ∧
        (postGo oracle attempt remaining).1.error.isSome) ∧
      ((postGo oracle attempt remaining).1.ok = true →
        ∃ d, oracle ((postGo oracle attempt remaining).2.2 - 1) =
            AttemptOutcome.success d ∧
          (postGo oracle attempt remaining).1.data = some d) := by
  intro remaining
  induction remaining with
  | zero =>
    intro attempt
    cases horacle : oracle attempt <;>
      simp [postGo, horacle] <;> omega
  | succ r ih =>
    intro attempt
    cases horacle : oracle attempt with
    | success d => simp [postGo, horacle]; omega
    | timeoutExc =>
      obtain ⟨ih1, ih2, ih3, ih4, ih5, ih6⟩ := ih (attempt + 1)
      refine ⟨?_, ?_, ?_, ?_, ?_, ?_⟩
      · simp only [postGo, horacle]
        omega
      · simp only [postGo, horacle]
        omega
      · intro k hk hk2
        simp only [postGo, horacle] at hk2
        rcases Nat.eq_or_lt_of_le hk with heq | hlt
        · exact heq ▸ horacle
        · exact ih3 k hlt hk2
      · simp only [postGo, horacle]
        rw [ih4]
        have hgt : attempt + 1 < (postGo oracle (attempt + 1) r).2.2 := ih1
        have hrw : (postGo oracle (attempt + 1) r).2.2 - 1 - attempt =
            ((postGo oracle (attempt + 1) r).2.2 - 1 - (attempt + 1)) + 1 := by
          omega
        rw [hrw, List.range'_succ]
        simp
      · intro hko
        simp only [postGo, horacle] at hko ⊢
        exact ih5 hko
      · intro hko
        simp only [postGo, horacle] at hko ⊢
        exact ih6 hko
    | httpStatusErr c b => simp [postGo, horacle]; omega
    | otherExc m => simp [postGo, horacle]; omega

/--
C7: the retry policy of the inference client's `_post`.  For any sequence of
attempt outcomes and any retry budget: at most `retries + 1` attempts are
issued; every attempt that was followed by another one had timed out (so
HTTP status errors and other exceptions return immediately, unretried);
the sleeps between attempts are exactly `2^attempt` seconds for each retried
timeout (exponential backoff); a failure carries `ok=false`, an error
message, and no data, so `_extract_text` yields the empty string — no usable
text; and a success returns the data of its final attempt.
-/
theorem vllm_post_retry_policy (oracle : Nat → AttemptOutcome) (retries : Nat) :
    (vllmPost oracle retries).2.2 ≤ retries + 1 ∧
    (∀ k, k + 1 < (vllmPost oracle retries).2.2 →
      oracle k = AttemptOutcome.timeoutExc) ∧
    (vllmPost oracle retries).2.1 =
      (List.range ((vllmPost oracle retries).2.2 - 1)).map (fun k => 2 ^ k) ∧
    ((vllmPost oracle retries).1.ok = false →
      (vllmPost oracle retries).1.data = none ∧
      (vllmPost oracle retries).1.error.isSome ∧
      ∀ decode, extract_text decode (vllmPost oracle retries).1 = []) ∧
    ((vllmPost oracle retries).1.ok = true →
      ∃ d, oracle ((vllmPost oracle retries).2.2 - 1) =
          AttemptOutcome.success d ∧
        (vllmPost oracle retries).1.data = some d) := by
  obtain ⟨h1, h2, h3, h4, h5, h6⟩ := postGo_spec oracle retries 0
  refine ⟨by simpa [vllmPost] using h2, ?_, ?_, ?_, h6⟩
  · intro k hk
    exact h3 k (Nat.zero_le k) hk
  · simpa [vllmPost, List.range_eq_range'] using h4
  · intro hko
    obtain ⟨hd, he⟩ := h5 hko
    exact ⟨hd, he, fun decode => by simp [extract_text, hko]⟩

/-- Witness for C7: with a timeout then an HTTP error and budget 2, exactly
two attempts run, one backoff sleep of `2^0` occurs, and the failure carries
no usable text. -/
theorem vllm_post_retry_policy_witness :
    (vllmPost oracleW 2).2.2 ≤ 3 ∧
    oracleW 0 = AttemptOutcome.timeoutExc ∧
    (vllmPost oracleW 2).2.1 =
      (List.range ((vllmPost oracleW 2).2.2 - 1)).map (fun k => 2 ^ k) ∧
    (vllmPost oracleW 2).1.data = none ∧
    (vllmPost oracleW 2).1.error.isSome ∧
    extract_text (fun d => d) (vllmPost oracleW 2).1 = [] := by
  obtain ⟨h1, h2, h3, h4, _⟩ := vllm_post_retry_policy oracleW 2
  obtain ⟨hd, he, hx⟩ := h4 (by decide)
  exact ⟨h1, h2 0 (by decide), h3, hd, he, hx (fun d => d)⟩

/--
C3 counterexample: in the diversify-retry phase, attempt 1 adds zero new
objectives, yet the loop does not stop — attempt 2 runs and adds an
objective.  A second attempt exists, so the phase does not stop "as soon as
any single attempt adds zero new objectives" while under the cap of 15.
-/
theorem lo_diversify_no_progress_counterexample :
    (processModule 1 (str2c "Groups") extC3 (fun _ => ⟨false, []⟩) addOC3).addAttempts
        = 2 ∧
    (processModule 1 (str2c "Groups") extC3 (fun _ => ⟨false, []⟩)
        addOC3).finalState.normalized = [goodObjective] ∧
    foldAcceptAdd 1 ⟨[], []⟩ ((parse_json_array (extC3
        (if (addOC3 1).ok then (addOC3 1).text else []))).getD []) = (⟨[], []⟩, 0) := by
  refine ⟨by decide, by decide, by decide⟩

/--
C3 amended: a zero-progress diversify-retry attempt terminates the loop only
once more than five additional attempts have been issued
(`additional_attempts > 5 and added_count == 0`).  In particular, when the
target is unmet and the backend keeps failing so that no attempt ever adds
an objective, the phase issues exactly 6 of its up-to-15 attempts and stops.
-/
theorem lo_diversify_stops_after_six (nLos : Nat) (ext : Str → List (List Str))
    (addO : Nat → InferResult) (st : AccState)
    (hlt : st.normalized.length < nLos)
    (hO : ∀ a, (addO a).ok = false)
    (hP : parse_json_array (ext []) = none) :
    addLoopGo nLos ext addO st 0 15 = (st, 6) := by
  have hstep : ∀ a r, 5 < a + 1 →
      addLoopGo nLos ext addO st a (r + 1) = (st, a + 1) := by
    intro a r ha
    simp [addLoopGo, hlt, hO a.succ, hP, foldAcceptAdd, ha]
  have hgo : ∀ a r, ¬ 5 < a + 1 →
      addLoopGo nLos ext addO st a (r + 1) = addLoopGo nLos ext addO st (a + 1) r := by
    intro a r ha
    simp [addLoopGo, hlt, hO a.succ, hP, foldAcceptAdd, ha]
  rw [hgo 0 14 (by omega), hgo 1 13 (by omega), hgo 2 12 (by omega),
    hgo 3 11 (by omega), hgo 4 10 (by omega), hstep 5 9 (by omega)]

/-- Witness for the amended C3 with a concrete always-failing oracle. -/
theorem lo_diversify_stops_after_six_witness :
    addLoopGo 1 (fun _ => []) (fun _ => ⟨false, []⟩) ⟨[], []⟩ 0 15 = (⟨[], []⟩, 6) :=
  lo_diversify_stops_after_six 1 (fun _ => []) (fun _ => ⟨false, []⟩) ⟨[], []⟩
    (by decide) (fun a => rfl) (by decide)

/-! ### String lemmas for the objective pipeline -/

theorem splitWs_nil : splitWs [] = [] := rfl

theorem splitWs_cons_space (c : Nat) (rest : Str) (h : pySpace c = true) :
    splitWs (c :: rest) = splitWs rest := by
  simp [splitWs, splitWsAux, h]

theorem splitWsAux_ne (l : Str) : ∀ cur : Str, cur ≠ [] →
    splitWsAux l cur =
      (cur.reverse ++ l.takeWhile (fun x => !pySpace x)) ::
        splitWs (l.dropWhile (fun x => !pySpace x)) := by
  induction l with
  | nil =>
    intro cur hcur
    simp [splitWsAux, hcur, splitWs]
  | cons c rest ih =>
    intro cur hcur
    by_cases hc : pySpace c
    · simp only [splitWsAux, hc, if_pos, hcur, if_neg, List.takeWhile_cons,
        List.dropWhile_cons, Bool.not_eq_true']
      simp only [splitWs, splitWsAux, hc, if_pos]
      simp [hc]
    · simp only [splitWsAux, hc, Bool.false_eq_true, if_false, List.takeWhile_cons,
        List.dropWhile_cons, Bool.not_eq_true']
      rw [ih (c :: cur) (by simp)]
      simp [hc]

theorem splitWs_cons_word (c : Nat) (rest : Str) (h : pySpace c = false) :
    splitWs (c :: rest) =
      (c :: rest.takeWhile (fun x => !pySpace x)) ::
        splitWs (rest.dropWhile (fun x => !pySpace x)) := by
  show splitWsAux (c :: rest) [] = _
  simp only [splitWsAux, h, Bool.false_eq_true, if_false]
  rw [splitWsAux_ne rest [c] (by simp)]
  simp


theorem wc_cons_space' (c : Nat) (rest : Str) (h : pySpace c = true) :
    wc (c :: rest) = wc rest := by
  rw [wc, splitWs_cons_space c rest h]; rfl

theorem wc_cons_word' (c : Nat) (rest : Str) (h : pySpace c = false) :
    wc (c :: rest) = wc (rest.dropWhile (fun x => !pySpace x)) + 1 := by
  rw [wc, splitWs_cons_word c rest h]; rfl

theorem wc_le_append_aux :
    ∀ (n : Nat) (l₁ : Str), l₁.length ≤ n → ∀ l₂ : Str, wc l₁ ≤ wc (l₁ ++ l₂) := by
  intro n
  induction n with
  | zero =>
    intro l₁ hlen l₂
    have : l₁ = [] := List.length_eq_zero.mp (Nat.le_zero.mp hlen)
    subst this
    simp [wc, splitWs, splitWsAux]
  | succ m ih =>
    intro l₁ hlen l₂
    cases l₁ with
    | nil => simp [wc, splitWs, splitWsAux]
    | cons c rest =>
      by_cases hc : pySpace c
      · rw [List.cons_append, wc_cons_space' c rest hc, wc_cons_space' c _ hc]
        exact ih rest (by simpa using hlen) l₂
      · have hc' : pySpace c = false := by simpa using hc
        rw [List.cons_append, wc_cons_word' c rest hc', wc_cons_word' c _ hc']
        have hrest : rest.length ≤ m := by simpa using hlen
        by_cases hemp : rest.dropWhile (fun x => !pySpace x) = []
        · rw [hemp]
          simp only [List.dropWhile_append, hemp, List.isEmpty_nil, if_true]
          simp [wc, splitWs, splitWsAux]
        · rw [List.dropWhile_append]
          rw [if_neg (by simpa [List.isEmpty_iff] using hemp)]
          have hdrop : (rest.dropWhile (fun x => !pySpace x)).length ≤ m :=
            Nat.le_trans (List.dropWhile_sublist _).length_le hrest
          exact Nat.add_le_add_right (ih _ hdrop l₂) 1

theorem wc_le_append (l₁ l₂ : Str) : wc l₁ ≤ wc (l₁ ++ l₂) :=
  wc_le_append_aux l₁.length l₁ (Nat.le_refl _) l₂

theorem rdrop_decomp (p : Nat → Bool) (l : Str) :
    l = rdrop p l ++ (l.reverse.takeWhile p).reverse ∧
    ∀ c ∈ (l.reverse.takeWhile p).reverse, p c = true := by
  constructor
  · calc l = l.reverse.reverse := (List.reverse_reverse l).symm
    _ = (l.reverse.takeWhile p ++ l.reverse.dropWhile p).reverse := by
        rw [List.takeWhile_append_dropWhile]
    _ = (l.reverse.dropWhile p).reverse ++ (l.reverse.takeWhile p).reverse := by
        rw [List.reverse_append]
    _ = rdrop p l ++ (l.reverse.takeWhile p).reverse := rfl
  · intro c hc
    rw [List.mem_reverse] at hc
    exact List.mem_takeWhile_imp hc

theorem dropWhile_headD_false (p : Nat → Bool) (l : Str)
    (h : l.dropWhile p ≠ []) : p ((l.dropWhile p).headD 0) = false := by
  induction l with
  | nil => simp at h
  | cons c rest ih =>
    by_cases hc : p c
    · rw [List.dropWhile_cons_of_pos hc] at h ⊢
      exact ih h
    · rw [List.dropWhile_cons_of_neg hc]
      simpa using hc

theorem pySpace_eq_true_iff (c : Nat) :
    pySpace c = true ↔ (c = 32 ∨ c = 9 ∨ c = 10 ∨ c = 13 ∨ c = 11 ∨ c = 12) := by
  simp [pySpace, or_assoc]

theorem pySpace_lowerC (c : Nat) : pySpace (lowerC c) = pySpace c := by
  rw [Bool.eq_iff_iff, pySpace_eq_true_iff, pySpace_eq_true_iff]
  unfold lowerC
  split_ifs with h <;> omega

theorem pySpace_upperC (c : Nat) : pySpace (upperC c) = pySpace c := by
  rw [Bool.eq_iff_iff, pySpace_eq_true_iff, pySpace_eq_true_iff]
  unfold upperC
  split_ifs with h <;> omega

theorem lowerC_upperC (c : Nat) : lowerC (upperC c) = lowerC c := by
  unfold lowerC upperC
  split_ifs with h1 h2 h3 <;> omega

theorem wc_pyLower_aux :
    ∀ (n : Nat) (l : Str), l.length ≤ n → wc (pyLower l) = wc l := by
  intro n
  induction n with
  | zero =>
    intro l hlen
    have : l = [] := List.length_eq_zero.mp (Nat.le_zero.mp hlen)
    subst this; rfl
  | succ m ih =>
    intro l hlen
    cases l with
    | nil => rfl
    | cons c rest =>
      have hrest : rest.length ≤ m := by simpa using hlen
      show wc (lowerC c :: pyLower rest) = wc (c :: rest)
      by_cases hc : pySpace c
      · rw [wc_cons_space' _ _ (by rw [pySpace_lowerC]; exact hc),
          wc_cons_space' _ _ hc]
        exact ih rest hrest
      · have hc' : pySpace c = false := by simpa using hc
        rw [wc_cons_word' _ _ (by rw [pySpace_lowerC]; exact hc'),
          wc_cons_word' _ _ hc']
        have hfun : ((fun x : Nat => !pySpace x) ∘ lowerC) = (fun x : Nat => !pySpace x) :=
          funext (fun x => by simp [Function.comp, pySpace_lowerC])
        rw [show (pyLower rest).dropWhile (fun x => !pySpace x) =
            pyLower (rest.dropWhile (fun x => !pySpace x)) by
          rw [pyLower, List.dropWhile_map, hfun]; rfl]
        have hdrop : (rest.dropWhile (fun x => !pySpace x)).length ≤ m :=
          Nat.le_trans (List.dropWhile_sublist _).length_le hrest
        rw [ih _ hdrop]

theorem wc_pyLower (l : Str) : wc (pyLower l) = wc l :=
  wc_pyLower_aux l.length l (Nat.le_refl _)

theorem pyLower_capFirst (s : Str) : pyLower (capFirst s) = pyLower s := by
  cases s with
  | nil => rfl
  | cons c rest =>
    simp only [capFirst]
    by_cases h : isUpperC c
    · rw [if_pos h]
    · rw [if_neg h]
      show lowerC (upperC c) :: pyLower rest = lowerC c :: pyLower rest
      rw [lowerC_upperC]

theorem wc_capFirst (s : Str) (h : pySpace (s.headD 0) = false) :
    wc (capFirst s) = wc s := by
  cases s with
  | nil => rfl
  | cons c rest =>
    have hc : pySpace c = false := by simpa using h
    simp only [capFirst]
    by_cases hu : isUpperC c
    · rw [if_pos hu]
    · rw [if_neg hu]
      rw [wc_cons_word' _ _ (by rw [pySpace_upperC]; exact hc),
        wc_cons_word' _ _ hc]

theorem containsSub_append_left (x t sub : Str)
    (h : containsSub x sub = true) : containsSub (x ++ t) sub = true := by
  unfold containsSub at h ⊢
  rw [List.any_eq_true] at h ⊢
  obtain ⟨i, hi, hmatch⟩ := h
  rw [List.mem_range] at hi
  rw [beq_iff_eq] at hmatch
  have hix : i ≤ x.length := by omega
  have hlen : sub.length ≤ x.length - i := by
    have hl := congrArg List.length hmatch
    simp only [List.length_take, List.length_drop] at hl
    omega
  refine ⟨i, ?_, ?_⟩
  · rw [List.mem_range, List.length_append]
    omega
  · rw [beq_iff_eq, List.drop_append_of_le_length hix,
      List.take_append_eq_append_take]
    have h2 : sub.length - (x.drop i).length = 0 := by
      rw [List.length_drop]; omega
    rw [h2, List.take_zero, List.append_nil, hmatch]

theorem pyStarts_append_elim (x t v : Str)
    (h : pyStarts (x ++ t) v = true)
    (hv : ∀ c ∈ v, 97 ≤ c ∧ c ≤ 122)
    (ht : ∀ c ∈ t, pySpace c = true ∨ c = 46) :
    pyStarts x v = true := by
  unfold pyStarts at h ⊢
  rw [beq_iff_eq] at h ⊢
  by_cases hlen : v.length ≤ x.length
  · rw [List.take_append_of_le_length hlen] at h
    exact h
  · exfalso
    push_neg at hlen
    have hx : x.take v.length = x := List.take_of_length_le (Nat.le_of_lt hlen)
    rw [List.take_append_eq_append_take, hx] at h
    cases hr0 : t.take (v.length - x.length) with
    | nil =>
      rw [hr0, List.append_nil] at h
      have := congrArg List.length h
      omega
    | cons c rs =>
      have hcv : c ∈ v := by
        rw [← h, hr0]
        exact List.mem_append_right x (by simp)
      have hct : c ∈ t := List.take_subset _ _ (by rw [hr0]; simp)
      obtain ⟨h97, h122⟩ := hv c hcv
      rcases ht c hct with hsp | h46
      · rw [pySpace_eq_true_iff] at hsp
        omega
      · omega

theorem verbs_all_letters :
    actionVerbs.all (fun v => v.all (fun c => decide (97 ≤ c ∧ c ≤ 122))) = true := by
  decide

theorem verbs_ne_nil : actionVerbs.all (fun v => !v.isEmpty) = true := by
  decide

theorem head_not_space_of_verb (l : Str)
    (h : startsWithVerb (pyLower l) = true) :
    l ≠ [] ∧ pySpace (l.headD 0) = false := by
  unfold startsWithVerb at h
  rw [List.any_eq_true] at h
  obtain ⟨v, hv, hstart⟩ := h
  unfold pyStarts at hstart
  rw [beq_iff_eq] at hstart
  have hletters := verbs_all_letters
  rw [List.all_eq_true] at hletters
  have hvl := hletters v hv
  rw [List.all_eq_true] at hvl
  have hne := verbs_ne_nil
  rw [List.all_eq_true] at hne
  have hvne : v ≠ [] := by
    have := hne v hv
    simpa [List.isEmpty_iff] using this
  cases v with
  | nil => exact absurd rfl hvne
  | cons c0 vrest =>
    cases l with
    | nil => simp [pyLower] at hstart
    | cons c rest =>
      refine ⟨by simp, ?_⟩
      have hc0 : lowerC c = c0 := by
        have : (lowerC c :: pyLower rest).take (c0 :: vrest).length = c0 :: vrest := hstart
        rw [List.length_cons, List.take_succ_cons] at this
        exact (List.cons.injEq _ _ _ _).mp this |>.1
      have hc0r : 97 ≤ c0 ∧ c0 ≤ 122 := by
        have := hvl c0 (by simp)
        simpa using this
      show pySpace c = false
      rw [← pySpace_lowerC, hc0]
      cases hps : pySpace c0 with
      | false => rfl
      | true =>
        rw [pySpace_eq_true_iff] at hps
        omega

theorem lowerC_space_or_dot (c : Nat) (h : pySpace c = true ∨ c = 46) :
    pySpace (lowerC c) = true ∨ lowerC c = 46 := by
  rcases h with h | h
  · left; rw [pySpace_lowerC]; exact h
  · right; subst h; rfl

theorem clean_decomp (lo : Str) (h : pySpace (lo.headD 0) = false) :
    ∃ t, lo = pyRstripDot (pyStrip lo) ++ t ∧
      ∀ c ∈ t, pySpace c = true ∨ c = 46 := by
  have hdw : lo.dropWhile pySpace = lo := by
    cases lo with
    | nil => rfl
    | cons c rest =>
      rw [List.dropWhile_cons_of_neg]
      simpa using h
  obtain ⟨h1, h1mem⟩ := rdrop_decomp pySpace lo
  obtain ⟨h2, h2mem⟩ := rdrop_decomp (fun c => c == 46) (pyStrip lo)
  refine ⟨((pyStrip lo).reverse.takeWhile (fun c => c == 46)).reverse ++
    (lo.reverse.takeWhile pySpace).reverse, ?_, ?_⟩
  · conv_lhs => rw [h1]
    rw [show rdrop pySpace lo = pyStrip lo by rw [pyStrip, hdw]]
    conv_lhs => rw [h2]
    rw [List.append_assoc]
    rfl
  · intro c hc
    rw [List.mem_append] at hc
    rcases hc with hc | hc
    · right
      have := h2mem c hc
      rwa [beq_iff_eq] at this
    · left
      exact h1mem c hc

theorem clean_headD_not_space (lo : Str)
    (hne : pyRstripDot (pyStrip lo) ≠ []) :
    pySpace ((pyRstripDot (pyStrip lo)).headD 0) = false := by
  obtain ⟨h1, _⟩ := rdrop_decomp pySpace (lo.dropWhile pySpace)
  obtain ⟨h2, _⟩ := rdrop_decomp (fun c => c == 46) (pyStrip lo)
  set t1 := ((lo.dropWhile pySpace).reverse.takeWhile pySpace).reverse with ht1
  set t2 := ((pyStrip lo).reverse.takeWhile (fun c => c == 46)).reverse with ht2
  cases hcl : pyRstripDot (pyStrip lo) with
  | nil => exact absurd hcl hne
  | cons c cs =>
    have hcl' : rdrop (fun c => c == 46) (pyStrip lo) = c :: cs := hcl
    have hd_eq : lo.dropWhile pySpace = c :: (cs ++ t2 ++ t1) := by
      conv_lhs => rw [h1]
      rw [show rdrop pySpace (lo.dropWhile pySpace) = pyStrip lo from rfl]
      conv_lhs => rw [h2]
      rw [hcl']
      simp [List.append_assoc]
    have hd_ne : lo.dropWhile pySpace ≠ [] := by rw [hd_eq]; simp
    have hhead := dropWhile_headD_false pySpace lo hd_ne
    rw [hd_eq] at hhead
    simpa using hhead

theorem accept_norm_props (lo : Str)
    (hne : pyRstripDot (pyStrip lo) ≠ [])
    (hwc : 6 ≤ (splitWs (pyRstripDot (pyStrip lo))).length) :
    6 ≤ wc (capFirst (pyRstripDot (pyStrip lo))) ∧
    (objProps lo →
      wc (capFirst (pyRstripDot (pyStrip lo))) ≤ 20 ∧
      startsWithVerb (pyLower (capFirst (pyRstripDot (pyStrip lo)))) = true ∧
      isPlaceholder (pyLower (capFirst (pyRstripDot (pyStrip lo)))) = false) := by
  have hhead := clean_headD_not_space lo hne
  have hwceq := wc_capFirst _ hhead
  refine ⟨by rw [hwceq]; exact hwc, ?_⟩
  intro hobj
  obtain ⟨h6, h20, hlen, hverb, hplc⟩ := hobj
  obtain ⟨hlo_ne, hlo_head⟩ := head_not_space_of_verb lo hverb
  obtain ⟨t, hdecomp, htmem⟩ := clean_decomp lo hlo_head
  have hlo_low : pyLower lo = pyLower (pyRstripDot (pyStrip lo)) ++ pyLower t := by
    conv_lhs => rw [hdecomp]
    rw [pyLower, List.map_append]
    rfl
  refine ⟨?_, ?_, ?_⟩
  · rw [hwceq]
    calc wc (pyRstripDot (pyStrip lo)) ≤ wc (pyRstripDot (pyStrip lo) ++ t) :=
      wc_le_append _ _
    _ = wc lo := by rw [← hdecomp]
    _ ≤ 20 := h20
  · rw [pyLower_capFirst]
    unfold startsWithVerb at hverb ⊢
    rw [List.any_eq_true] at hverb ⊢
    obtain ⟨v, hvmem, hstart⟩ := hverb
    refine ⟨v, hvmem, ?_⟩
    rw [hlo_low] at hstart
    apply pyStarts_append_elim _ _ _ hstart
    · have hletters := verbs_all_letters
      rw [List.all_eq_true] at hletters
      have hv := hletters v hvmem
      rw [List.all_eq_true] at hv
      intro ch hch
      have := hv ch hch
      simpa using this
    · intro ch hch
      obtain ⟨c0, hc0t, rfl⟩ := List.mem_map.mp hch
      exact lowerC_space_or_dot c0 (htmem c0 hc0t)
  · rw [pyLower_capFirst]
    cases hip : isPlaceholder (pyLower (pyRstripDot (pyStrip lo))) with
    | false => rfl
    | true =>
      exfalso
      unfold isPlaceholder at hip
      rw [List.any_eq_true] at hip
      obtain ⟨p, hpmem, hsub⟩ := hip
      have hlo_sub : containsSub (pyLower lo) p = true := by
        rw [hlo_low]
        exact containsSub_append_left _ _ _ hsub
      have : isPlaceholder (pyLower lo) = true := by
        unfold isPlaceholder
        rw [List.any_eq_true]
        exact ⟨p, hpmem, hlo_sub⟩
      rw [hplc] at this
      exact Bool.false_ne_true this

theorem acceptMain_cases (nLos : Nat) (module : Str) (st : AccState) (lo : Str) :
    acceptMain nLos module st lo = st ∨
    ∃ s, acceptMain nLos module st lo =
        AccState.mk (st.normalized ++ [s]) (st.seen ++ [s]) ∧
      6 ≤ wc s ∧
      (∀ e ∈ st.seen, pyLower s ≠ pyLower e) ∧
      (objProps lo → wc s ≤ 20 ∧ startsWithVerb (pyLower s) = true ∧
        isPlaceholder (pyLower s) = false) := by
  unfold acceptMain
  by_cases h1 : nLos ≤ st.normalized.length
  · left; rw [if_pos h1]
  · rw [if_neg h1]
    by_cases h2 : pyRstripDot (pyStrip lo) = [] ∨
        (splitWs (pyRstripDot (pyStrip lo))).length < 6
    · left; rw [if_pos h2]
    · rw [if_neg h2]
      push_neg at h2
      obtain ⟨h2a, h2b⟩ := h2
      by_cases h3 : pyStartsAny (pyLower (pyRstripDot (pyStrip lo)))
          [str2c "lo", str2c "objective", str2c "learning objective"] = true
      · left; rw [if_pos h3]
      · rw [if_neg h3]
        by_cases h4 : pyLower (capFirst (pyRstripDot (pyStrip lo))) = pyLower module ∨
            st.seen.any (fun seen =>
              pyLower (capFirst (pyRstripDot (pyStrip lo))) == pyLower seen) = true
        · left; rw [if_pos h4]
        · rw [if_neg h4]
          right
          push_neg at h4
          obtain ⟨_, h4b⟩ := h4
          have hdist : ∀ e ∈ st.seen,
              pyLower (capFirst (pyRstripDot (pyStrip lo))) ≠ pyLower e := by
            intro e he heq
            apply h4b
            rw [List.any_eq_true]
            exact ⟨e, he, by rw [beq_iff_eq]; exact heq⟩
          obtain ⟨ha, hc⟩ := accept_norm_props lo h2a h2b
          exact ⟨_, rfl, ha, hdist, hc⟩

theorem acceptAdd_cases (nLos : Nat) (st : AccState) (lo : Str) :
    acceptAdd nLos st lo = (st, false) ∨
    ∃ s, acceptAdd nLos st lo =
        (AccState.mk (st.normalized ++ [s]) (st.seen ++ [s]), true) ∧
      6 ≤ wc s ∧
      (∀ e ∈ st.seen, pyLower s ≠ pyLower e ∧
        overlapGt (pyLower s) (pyLower e) = false) ∧
      (objProps lo → wc s ≤ 20 ∧ startsWithVerb (pyLower s) = true ∧
        isPlaceholder (pyLower s) = false) := by
  unfold acceptAdd
  by_cases h1 : nLos ≤ st.normalized.length
  · left; rw [if_pos h1]
  · rw [if_neg h1]
    by_cases h2 : pyRstripDot (pyStrip lo) = [] ∨
        (splitWs (pyRstripDot (pyStrip lo))).length < 6
    · left; rw [if_pos h2]
    · rw [if_neg h2]
      push_neg at h2
      obtain ⟨h2a, h2b⟩ := h2
      by_cases h3 : pyStartsAny (pyLower (pyRstripDot (pyStrip lo)))
          [str2c "lo", str2c "objective", str2c "learning objective"] = true
      · left; rw [if_pos h3]
      · rw [if_neg h3]
        by_cases h4 : st.seen.any (fun seen =>
            pyLower (capFirst (pyRstripDot (pyStrip lo))) == pyLower seen ||
            (decide (4 < (splitWs (pyLower (capFirst
              (pyRstripDot (pyStrip lo))))).length) &&
              overlapGt (pyLower (capFirst (pyRstripDot (pyStrip lo))))
                (pyLower seen))) = true
        · left; rw [if_pos h4]
        · rw [if_neg h4]
          right
          have hwcl : 4 < (splitWs (pyLower (capFirst
              (pyRstripDot (pyStrip lo))))).length := by
            have e1 : wc (pyLower (capFirst (pyRstripDot (pyStrip lo)))) =
                wc (capFirst (pyRstripDot (pyStrip lo))) := wc_pyLower _
            have e2 := wc_capFirst _ (clean_headD_not_space lo h2a)
            have h2b' : 6 ≤ wc (pyRstripDot (pyStrip lo)) := h2b
            show 4 < wc (pyLower (capFirst (pyRstripDot (pyStrip lo))))
            omega
          have hall : ∀ e ∈ st.seen,
              (pyLower (capFirst (pyRstripDot (pyStrip lo))) == pyLower e ||
                (decide (4 < (splitWs (pyLower (capFirst
                  (pyRstripDot (pyStrip lo))))).length) &&
                  overlapGt (pyLower (capFirst (pyRstripDot (pyStrip lo))))
                    (pyLower e))) = false := by
            intro e he
            cases hfe : (pyLower (capFirst (pyRstripDot (pyStrip lo))) == pyLower e ||
                (decide (4 < (splitWs (pyLower (capFirst
                  (pyRstripDot (pyStrip lo))))).length) &&
                  overlapGt (pyLower (capFirst (pyRstripDot (pyStrip lo))))
                    (pyLower e))) with
            | false => rfl
            | true =>
              exfalso
              apply h4
              rw [List.any_eq_true]
              exact ⟨e, he, hfe⟩
          have hdist : ∀ e ∈ st.seen,
              pyLower (capFirst (pyRstripDot (pyStrip lo))) ≠ pyLower e ∧
              overlapGt (pyLower (capFirst (pyRstripDot (pyStrip lo))))
                (pyLower e) = false := by
            intro e he
            have hfe := hall e he
            rw [Bool.or_eq_false_iff, Bool.and_eq_false_iff] at hfe
            obtain ⟨hbeq, hand⟩ := hfe
            constructor
            · intro heq
              rw [heq] at hbeq
              simp at hbeq
            · rcases hand with hand | hand
              · rw [decide_eq_false_iff_not] at hand
                exact absurd hwcl hand
              · exact hand
          obtain ⟨ha, hc⟩ := accept_norm_props lo h2a h2b
          exact ⟨_, rfl, ha, hdist, hc⟩

theorem validate_objectives_sound (objs v : List Str)
    (h : validate_objectives objs = some v) : ∀ o ∈ v, objProps o := by
  unfold validate_objectives at h
  by_cases he : ((objs.map objClean).filter validObjective) = []
  · rw [if_pos he] at h
    exact absurd h (by simp)
  · rw [if_neg he] at h
    have hv : v = (objs.map objClean).filter validObjective :=
      (Option.some.injEq _ _ ▸ h).symm
    intro o ho
    rw [hv] at ho
    have hvalid : validObjective o = true := List.of_mem_filter ho
    simp only [validObjective, Bool.and_eq_true, Bool.not_eq_true',
      decide_eq_true_eq, Nat.not_lt, decide_eq_false_iff_not] at hvalid
    obtain ⟨⟨⟨⟨hplc, hwc⟩, hverb⟩, _⟩, _⟩ := hvalid
    exact ⟨hwc.1.1, hwc.1.2, hwc.2, hverb, hplc⟩

theorem parse_json_array_sound :
    ∀ (cands : List (List Str)) (v : List Str),
      parse_json_array cands = some v → ∀ o ∈ v, objProps o := by
  intro cands
  induction cands with
  | nil => intro v h; simp [parse_json_array] at h
  | cons c rest ih =>
    intro v h
    unfold parse_json_array at h
    by_cases hb : batchLooksBad c = true
    · rw [if_pos hb] at h
      exact ih v h
    · rw [if_neg hb] at h
      cases hv : validate_objectives c with
      | some v' =>
        rw [hv] at h
        have : v = v' := (Option.some.injEq _ _ ▸ h).symm
        subst this
        exact validate_objectives_sound c v hv
      | none =>
        rw [hv] at h
        exact ih v h

theorem stateInv_acceptMain (nLos : Nat) (module : Str) (st : AccState) (lo : Str)
    (hst : StateInv st) (hlo : objProps lo) :
    StateInv (acceptMain nLos module st lo) := by
  rcases acceptMain_cases nLos module st lo with h | ⟨s, heq, h6, hdist, hprops⟩
  · rw [h]; exact hst
  · rw [heq]
    obtain ⟨hseen, hpw, hall⟩ := hst
    obtain ⟨h20, hverb, hplc⟩ := hprops hlo
    refine ⟨by rw [hseen], ?_, ?_⟩
    · rw [List.pairwise_append]
      refine ⟨hpw, List.pairwise_singleton _ _, ?_⟩
      intro a ha b hb
      rw [List.mem_singleton] at hb
      subst hb
      exact fun hEq => (hdist a (hseen ▸ ha)) hEq.symm
    · intro x hx
      rw [List.mem_append] at hx
      rcases hx with hx | hx
      · exact hall x hx
      · rw [List.mem_singleton] at hx
        subst hx
        exact ⟨h6, h20, hverb, hplc⟩

theorem stateInv_acceptAdd (nLos : Nat) (st : AccState) (lo : Str)
    (hst : StateInv st) (hlo : objProps lo) :
    StateInv (acceptAdd nLos st lo).1 := by
  rcases acceptAdd_cases nLos st lo with h | ⟨s, heq, h6, hdist, hprops⟩
  · rw [h]; exact hst
  · rw [heq]
    obtain ⟨hseen, hpw, hall⟩ := hst
    obtain ⟨h20, hverb, hplc⟩ := hprops hlo
    refine ⟨by rw [hseen], ?_, ?_⟩
    · rw [List.pairwise_append]
      refine ⟨hpw, List.pairwise_singleton _ _, ?_⟩
      intro a ha b hb
      rw [List.mem_singleton] at hb
      subst hb
      exact fun hEq => ((hdist a (hseen ▸ ha)).1) hEq.symm
    · intro x hx
      rw [List.mem_append] at hx
      rcases hx with hx | hx
      · exact hall x hx
      · rw [List.mem_singleton] at hx
        subst hx
        exact ⟨h6, h20, hverb, hplc⟩

theorem stateInv_foldMain (nLos : Nat) (module : Str) :
    ∀ (batch : List Str) (st : AccState), StateInv st →
      (∀ lo ∈ batch, objProps lo) →
      StateInv (batch.foldl (acceptMain nLos module) st) := by
  intro batch
  induction batch with
  | nil => intro st h _; exact h
  | cons lo rest ih =>
    intro st h hb
    rw [List.foldl_cons]
    exact ih _ (stateInv_acceptMain nLos module st lo h (hb lo (by simp)))
      (fun x hx => hb x (by simp [hx]))

theorem stateInv_foldAdd (nLos : Nat) :
    ∀ (batch : List Str) (p : AccState × Nat), StateInv p.1 →
      (∀ lo ∈ batch, objProps lo) →
      StateInv (batch.foldl
        (fun q lo =>
          ((acceptAdd nLos q.1 lo).1, q.2 + if (acceptAdd nLos q.1 lo).2 then 1 else 0))
        p).1 := by
  intro batch
  induction batch with
  | nil => intro p h _; exact h
  | cons lo rest ih =>
    intro p h hb
    rw [List.foldl_cons]
    exact ih _ (stateInv_acceptAdd nLos p.1 lo h (hb lo (by simp)))
      (fun x hx => hb x (by simp [hx]))

theorem stateInv_foldAcceptAdd (nLos : Nat) (st : AccState) (batch : List Str)
    (hst : StateInv st) (hb : ∀ lo ∈ batch, objProps lo) :
    StateInv (foldAcceptAdd nLos st batch).1 := by
  unfold foldAcceptAdd
  exact stateInv_foldAdd nLos batch (st, 0) hst hb

theorem stateInv_parsed (ext : Str → List (List Str)) (respText : Str)
    (st : AccState) (nLos : Nat) (module : Str) (hst : StateInv st) :
    StateInv (match parse_json_array (ext respText) with
      | some parsed => parsed.foldl (acceptMain nLos module) st
      | none => st) := by
  cases hp : parse_json_array (ext respText) with
  | some parsed =>
    exact stateInv_foldMain nLos module parsed st hst
      (parse_json_array_sound (ext respText) parsed hp)
  | none => exact hst

theorem stateInv_mainLoopGo (nLos : Nat) (module : Str)
    (ext : Str → List (List Str)) (mainO : Nat → InferResult) :
    ∀ (remaining : Nat) (st : AccState) (resp : Option Str) (attempt : Nat),
      StateInv st →
      StateInv (mainLoopGo nLos module ext mainO st resp attempt remaining).1 := by
  intro remaining
  induction remaining with
  | zero => intro st resp attempt h; exact h
  | succ r ih =>
    intro st resp attempt h
    simp only [mainLoopGo]
    by_cases hc : st.normalized.length < nLos
    · rw [if_pos hc]
      exact ih _ _ _ (stateInv_parsed ext _ st nLos module h)
    · rw [if_neg hc]; exact h

theorem stateInv_addLoopGo (nLos : Nat) (ext : Str → List (List Str))
    (addO : Nat → InferResult) :
    ∀ (remaining : Nat) (st : AccState) (attempt : Nat), StateInv st →
      StateInv (addLoopGo nLos ext addO st attempt remaining).1 := by
  intro remaining
  induction remaining with
  | zero => intro st attempt h; exact h
  | succ r ih =>
    intro st attempt h
    simp only [addLoopGo]
    by_cases hc : st.normalized.length < nLos
    · rw [if_pos hc]
      have hfold : StateInv (foldAcceptAdd nLos st
          ((parse_json_array (ext (if (addO (attempt + 1)).ok
            then (addO (attempt + 1)).text else []))).getD [])).1 := by
        cases hp : parse_json_array (ext (if (addO (attempt + 1)).ok
            then (addO (attempt + 1)).text else [])) with
        | some parsed =>
          exact stateInv_foldAcceptAdd nLos st parsed h
            (parse_json_array_sound _ parsed hp)
        | none => exact h
      by_cases hbreak : 5 < attempt + 1 ∧ (foldAcceptAdd nLos st
          ((parse_json_array (ext (if (addO (attempt + 1)).ok
            then (addO (attempt + 1)).text else []))).getD [])).2 = 0
      · rw [if_pos hbreak]
        exact hfold
      · rw [if_neg hbreak]
        exact ih _ _ hfold
    · rw [if_neg hc]; exact h

theorem stateInv_processModule (nLos : Nat) (module : Str)
    (ext : Str → List (List Str)) (mainO addO : Nat → InferResult) :
    StateInv (processModule nLos module ext mainO addO).finalState := by
  unfold processModule
  exact stateInv_addLoopGo nLos ext addO 15 _ 0
    (stateInv_mainLoopGo nLos module ext mainO 10 ⟨[], []⟩ none 0
      ⟨rfl, List.Pairwise.nil, by simp⟩)

/--
C2 counterexample: in the main-attempt loop only exact case-insensitive
duplicates are rejected — no token-overlap check exists there.  A single
validated batch containing `objA` and `objB` (token-overlap ratio 6/7 > 0.6
in either direction, lowercases distinct) is accepted wholesale: both end up
in the same module's accepted objectives, refuting the claim that every
accepted pair has overlap at most 0.6.
-/
theorem lo_overlap_counterexample :
    (processModule 2 (str2c "Module") extC2 mainOC2
        (fun _ => ⟨false, []⟩)).finalState.normalized = [objA, objB] ∧
    parse_json_array [[objA, objB]] = some [objA, objB] ∧
    overlapGt (pyLower objB) (pyLower objA) = true ∧
    overlapGt (pyLower objA) (pyLower objB) = true ∧
    pyLower objA ≠ pyLower objB := by
  refine ⟨by decide, by decide, by decide, by decide, by decide⟩

/--
C2 amended: all pairs of objectives accepted for a module have distinct
lowercases, but the >0.6 token-overlap rejection applies only in the
diversify-retry loop: any candidate accepted there has overlap ratio at most
0.6 (relative to its own token set) with every previously accepted
objective, while the main-attempt loop enforces no overlap bound.
-/
theorem lo_dedup_amended (nLos : Nat) (module : Str)
    (ext : Str → List (List Str)) (mainO addO : Nat → InferResult) :
    ((processModule nLos module ext mainO addO).finalState.normalized.Pairwise
      (fun a b => pyLower a ≠ pyLower b)) ∧
    (∀ (st : AccState) (lo : Str), (acceptAdd nLos st lo).2 = true →
      ∃ s, (acceptAdd nLos st lo).1 =
          AccState.mk (st.normalized ++ [s]) (st.seen ++ [s]) ∧
        ∀ e ∈ st.seen, pyLower s ≠ pyLower e ∧
          overlapGt (pyLower s) (pyLower e) = false) := by
  constructor
  · exact (stateInv_processModule nLos module ext mainO addO).2.1
  · intro st lo hacc
    rcases acceptAdd_cases nLos st lo with h | ⟨s, heq, _, hdist, _⟩
    · rw [h] at hacc
      simp at hacc
    · refine ⟨s, ?_, hdist⟩
      rw [heq]

/-- Witness for the amended C2: `objC` is accepted by the diversify-phase
step against a seen set containing `objA`, with the guarantees instantiated. -/
theorem lo_dedup_amended_witness :
    ∃ s, (acceptAdd 6 ⟨[objA], [objA]⟩ objC).1 =
        AccState.mk ([objA] ++ [s]) ([objA] ++ [s]) ∧
      ∀ e ∈ [objA], pyLower s ≠ pyLower e ∧
        overlapGt (pyLower s) (pyLower e) = false :=
  (lo_dedup_amended 6 (str2c "M") (fun _ => []) (fun _ => ⟨false, []⟩)
    (fun _ => ⟨false, []⟩)).2 ⟨[objA], [objA]⟩ objC (by decide)

/--
C6 counterexample: `"Use a b c dd ee fff ."` passes `validate_objectives`
because `strip().rstrip('.')` leaves a trailing space and the 20-character
minimum counts it; the accumulation loop of `generate_los_for_modules`
re-strips that trailing space, storing an accepted objective of only 19
characters — below the claimed minimum length of 20.
-/
theorem lo_accepted_length_counterexample :
    validate_objectives [trailingSpaceObjective] =
      some [str2c "Use a b c dd ee fff "] ∧
    (str2c "Use a b c dd ee fff ").length = 20 ∧
    (processModule 1 (str2c "Module") extC6 mainOC6
        (fun _ => ⟨false, []⟩)).finalState.normalized =
      [str2c "Use a b c dd ee fff"] ∧
    (str2c "Use a b c dd ee fff").length = 19 := by
  refine ⟨by decide, by decide, by decide, by decide⟩

/--
C6 amended: every objective returned by `parse_json_array` /
`validate_objectives` has word count 6..20, character length at least 20,
begins with a verb from the fixed action-verb set, and matches no
placeholder pattern; every objective accumulated by
`generate_los_for_modules` retains the word-count, verb-start and
no-placeholder properties, but its character length can drop below 20
because the accumulation loop re-strips trailing whitespace and dots.
-/
theorem lo_objective_validation_amended :
    (∀ (cands : List (List Str)) (v : List Str),
      parse_json_array cands = some v →
      ∀ o ∈ v, 6 ≤ wc o ∧ wc o ≤ 20 ∧ 20 ≤ o.length ∧
        startsWithVerb (pyLower o) = true ∧ isPlaceholder (pyLower o) = false) ∧
    (∀ (nLos : Nat) (module : Str) (ext : Str → List (List Str))
      (mainO addO : Nat → InferResult) (s : Str),
      s ∈ (processModule nLos module ext mainO addO).finalState.normalized →
      6 ≤ wc s ∧ wc s ≤ 20 ∧ startsWithVerb (pyLower s) = true ∧
      isPlaceholder (pyLower s) = false) := by
  constructor
  · intro cands v h o ho
    exact parse_json_array_sound cands v h o ho
  · intro nLos module ext mainO addO s hs
    exact (stateInv_processModule nLos module ext mainO addO).2.2 s hs

/-- Witness for the amended C6 at a concrete candidate list and objective. -/
theorem lo_objective_validation_amended_witness :
    6 ≤ wc objA ∧ wc objA ≤ 20 ∧ 20 ≤ objA.length ∧
    startsWithVerb (pyLower objA) = true ∧
    isPlaceholder (pyLower objA) = false :=
  lo_objective_validation_amended.1 [[objA]] [objA] (by decide) objA (by decide)

end SME
